import Mathlib

/-!
Shallow embedding of the upload-session and delivery orchestration routes of
the zeropacking server: the multipart-upload coordinator
(`src/routes/upload.js`), the range-streaming proxy and the chunk-reassembly
session manager (`src/routes/video.js`).  Request-body fields that JavaScript
treats as falsy when absent are modelled by `""` (strings), `0` (the
`partNumber` field) and `Option.none` (the `parts` array); handlers are
truncated at the point where they hand a command to the external object
store, which is what the properties under study observe.
-/

namespace ZeroPacking

/-! ### Multipart upload routes (`src/routes/upload.js`) -/

/-- A part descriptor as supplied by the client at completion time:
`{ PartNumber, ETag }`. -/
structure PartDesc where
  PartNumber : Nat
  ETag : String
deriving DecidableEq, Repr

/-- Comparison used by `parts.sort((a, b) => a.PartNumber - b.PartNumber)`
(`upload.js` line 180). -/
def partLE (a b : PartDesc) : Prop := a.PartNumber ≤ b.PartNumber

instance : DecidableRel partLE := fun a b => Nat.decLe a.PartNumber b.PartNumber

instance : IsTotal PartDesc partLE := ⟨fun a b => Nat.le_total a.PartNumber b.PartNumber⟩

instance : IsTrans PartDesc partLE := ⟨fun _ _ _ => Nat.le_trans⟩

/-- The `CompleteMultipartUploadCommand` handed to the object store
(`upload.js` lines 183-190): key, upload id and the final part manifest. -/
structure CompleteCmd where
  key : String
  uploadId : String
  parts : List PartDesc
deriving DecidableEq, Repr

/-- Outcome of the `/multipart/complete` handler, truncated at the store
call: either the 400 validation response of line 176, or the command sent to
the store at line 192. -/
inductive CompleteOutcome where
  | validationError
  | storeCall (cmd : CompleteCmd)
deriving DecidableEq, Repr

/-- The `/multipart/complete` handler (`upload.js` lines 171-192).  The
body check is `!key || !uploadId || !parts || !Array.isArray(parts)`: a
missing or non-array `parts` field is `none`, an empty string is the falsy
string.  Note that a present-but-empty array is truthy in JavaScript and
passes this check.  The surviving request sorts `parts` by `PartNumber`
(JavaScript `Array.prototype.sort` with a numeric comparator: a stable sort,
modelled by `List.insertionSort`) and submits the manifest. -/
def completeUpload (key uploadId : String) (parts : Option (List PartDesc)) :
    CompleteOutcome :=
  if key = "" ∨ uploadId = "" ∨ parts = none then
    .validationError
  else
    .storeCall ⟨key, uploadId, (parts.getD []).insertionSort partLE⟩

/-- Modelled from the spec: the object store's multipart-abort endpoint,
which is an external collaborator (§6) and is not part of the sources.  It
tracks the live upload ids; aborting a live id removes it and succeeds,
while §3's rule that an upload accepts no further operations after reaching
a terminal state makes abort of an unknown or already-aborted id fail
(S3 `NoSuchUpload`). -/
def storeAbort (live : List String) (uploadId : String) : Bool × List String :=
  if uploadId ∈ live then (true, live.erase uploadId) else (false, live)

/-- Outcome of the `/multipart/abort` handler: the 400 validation response
of line 220, the 200 success body of lines 233-237, or the 500 response of
line 241 produced by the `catch` block when the store call throws. -/
inductive AbortOutcome where
  | validationError
  | success (key uploadId : String)
  | storeError
deriving DecidableEq, Repr

/-- The `/multipart/abort` handler (`upload.js` lines 215-243), paired with
the store state it leaves behind.  The handler simply forwards the abort to
the store and reports 200 on success; a store rejection lands in the `catch`
block and is reported as a 500 error — there is no normalization of
already-terminal uploads to success. -/
def abortUpload (live : List String) (key uploadId : String) :
    AbortOutcome × List String :=
  if key = "" ∨ uploadId = "" then
    (.validationError, live)
  else
    match storeAbort live uploadId with
    | (true, live') => (.success key uploadId, live')
    | (false, live') => (.storeError, live')

/-- Modelled from the spec: the identity context attached by the
`authenticateWorker` middleware, which is referenced by the routers but is
not among the provided sources; per §6 it supplies `(tenant_id, owner_id)`
— here `company_id` and `worker_id` — verbatim as `req.worker`. -/
structure WorkerCtx where
  company_id : String
  worker_id : String
deriving DecidableEq, Repr

/-- The presigned `UploadPartCommand` scope built at `upload.js`
lines 145-150. -/
structure UploadPartCmd where
  bucket : String
  key : String
  uploadId : String
  partNumber : Nat
deriving DecidableEq, Repr

/-- Outcome of the `/multipart/part-url` handler: the 400 validation
response of line 141, or the signed part credential of lines 152-158. -/
inductive PartUrlOutcome where
  | validationError
  | credential (cmd : UploadPartCmd)
deriving DecidableEq, Repr

/-- The `/multipart/part-url` handler (`upload.js` lines 136-158).  The
handler destructures only `req.body` (`key`, `uploadId`, `partNumber`); the
authenticated worker context is in scope as `req.worker` but never read.
`!partNumber` also rejects part number 0, which is falsy. -/
def requestPartUrl (bucket : String) (worker : WorkerCtx)
    (key uploadId : String) (partNumber : Nat) : PartUrlOutcome :=
  if key = "" ∨ uploadId = "" ∨ partNumber = 0 then
    .validationError
  else
    .credential ⟨bucket, key, uploadId, partNumber⟩

/-! ### Range streaming proxy (`src/routes/video.js`, `/stream/:recordingId`) -/

/-- Bytes of a stored object. -/
abbrev Buf := List Nat

/-- `range.replace(/bytes=/, "")` of `video.js` line 121, for headers that
carry the `bytes=` marker at most once and at the front (every well-formed
range header). -/
def stripBytes (cs : List Char) : List Char :=
  if cs.take 6 = "bytes=".data then cs.drop 6 else cs

/-- JavaScript `String.prototype.split("-")`. -/
def splitDash : List Char → List (List Char)
  | [] => [[]]
  | c :: rest =>
    let r := splitDash rest
    if c = '-' then [] :: r
    else (c :: r.headD []) :: r.tail

/-- JavaScript `parseInt(s, 10)` on the digit strings range headers are made
of; `none` models `NaN` for a non-digit component. -/
def parseIntJS (cs : List Char) : Option Nat :=
  if cs ≠ [] ∧ cs.all Char.isDigit then
    some (cs.foldl (fun n c => n * 10 + (c.toNat - 48)) 0)
  else
    none

/-- The range arithmetic of `video.js` lines 121-123:
`parts = header.replace(/bytes=/, "").split("-")`,
`start = parseInt(parts[0])`,
`end = parts[1] ? parseInt(parts[1]) : videoSize - 1`
(the empty string is falsy, so `bytes=start-` takes the `videoSize - 1`
branch).  `none` models a `NaN` start or end. -/
def parseRangeHeader (range : String) (videoSize : Nat) : Option (Int × Int) :=
  let parts := splitDash (stripBytes range.data)
  match parseIntJS (parts.getD 0 []) with
  | none => none
  | some s =>
    let endStr := parts.getD 1 []
    if endStr = [] then some ((s : Int), (videoSize : Int) - 1)
    else
      match parseIntJS endStr with
      | none => none
      | some e => some ((s : Int), (e : Int))

/-- Modelled from the spec: the external object store's ranged `GetObject`
(§6, §4.5), which is not part of the sources.  A request whose range is
satisfiable against the object returns the requested bytes, clamped at the
object's last byte; a range whose start lies beyond the last byte, or whose
start exceeds its end, is rejected (HTTP 416 `InvalidRange`), which the
calling handler observes as a thrown error. -/
def s3GetRange (obj : Buf) (start endB : Int) : Option Buf :=
  if 0 ≤ start ∧ start ≤ endB ∧ start < (obj.length : Int) then
    some ((obj.drop start.toNat).take (endB + 1 - start).toNat)
  else
    none

/-- Response of the `/stream/:recordingId` handler: the 200 full-object
stream of lines 153-160, the 206 response of lines 135-143 carrying
`Content-Range: bytes start-end/size`, the declared `Content-Length` and the
piped body, or the 500 response produced by the `catch` block of
lines 163-166 when the store call throws.  `nanRange` marks a header whose
`parseInt` is `NaN`, outside this model. -/
inductive StreamOutcome where
  | full (contentLength : Nat) (body : Buf)
  | ranged (contentRange : Int × Int × Nat) (contentLength : Int) (body : Buf)
  | streamError
  | nanRange
deriving DecidableEq, Repr

/-- The range-handling core of the `/stream/:recordingId` handler
(`video.js` lines 116-161), after the registry lookup has resolved the
object: `videoSize` is the store's `ContentLength`, and a `Range` header is
answered with 206 and `chunksize = end - start + 1` with no satisfiability
check of its own — the computed range is passed to the store verbatim. -/
def streamVideo (obj : Buf) (rangeHeader : Option String) : StreamOutcome :=
  let videoSize := obj.length
  match rangeHeader with
  | none => .full videoSize obj
  | some range =>
    match parseRangeHeader range videoSize with
    | none => .nanRange
    | some (start, endB) =>
      let chunksize := endB - start + 1
      match s3GetRange obj start endB with
      | none => .streamError
      | some body => .ranged (start, endB, videoSize) chunksize body

/-! ### Chunk reassembly session manager (`src/routes/video.js`,
`/start-upload`, `/upload-chunk`, `/upload-status`) -/

/-- The record stored in the `uploadSessions` map at session start
(`video.js` lines 273-282).  `chunks` is a JavaScript array that grows as
indices are assigned; a hole (an unassigned index below the array length) is
`none`. -/
structure Session where
  fileName : String
  fileSize : Nat
  totalChunks : Nat
  chunks : List (Option Buf)
  recordingId : String
  workerId : String
  companyId : String
  createdAt : Nat
deriving DecidableEq, Repr

/-- The `uploadSessions` map, session id to session. -/
abbrev SessionTable := List (String × Session)

/-- `uploadSessions.get(sid)`. -/
def lookupS : SessionTable → String → Option Session
  | [], _ => none
  | (k, s) :: rest, sid => if k = sid then some s else lookupS rest sid

/-- `uploadSessions.delete(sid)`. -/
def eraseS : SessionTable → String → SessionTable
  | [], _ => []
  | (k, s) :: rest, sid =>
    if k = sid then eraseS rest sid else (k, s) :: eraseS rest sid

/-- `uploadSessions.set(sid, s)`. -/
def insertS (st : SessionTable) (sid : String) (s : Session) : SessionTable :=
  (sid, s) :: eraseS st sid

/-- `arr[i] = a` on a JavaScript array: assigns index `i`, extending the
array with holes (`undefined`) as needed. -/
def setIdx : List (Option α) → Nat → α → List (Option α)
  | [], 0, a => [some a]
  | [], i + 1, a => none :: setIdx [] i a
  | _ :: rest, 0, a => some a :: rest
  | x :: rest, i + 1, a => x :: setIdx rest i a

/-- `arr[i]` on a JavaScript array (`undefined` past the end or at a
hole). -/
def getIdx (c : List (Option α)) (i : Nat) : Option α :=
  c.getD i none

/-- `chunks.filter(chunk => chunk !== undefined).length` of `video.js`
line 324: the number of distinct indices filled. -/
def countDefined (c : List (Option α)) : Nat :=
  (c.filterMap id).length

/-- `Buffer.concat(session.chunks)` of line 331: the chunk buffers joined in
strict index order; `none` models the `TypeError` thrown when the array
still has a hole. -/
def concatChunks (c : List (Option Buf)) : Option Buf :=
  (c.mapM id).map List.flatten

/-- Response of the `/upload-chunk` handler: the 400 `Invalid or expired
session` response of lines 314-319, the progress response of lines 353-358,
the completion response of lines 344-350 carrying the blob forwarded to
storage, or the 500 response of the `catch` block when `Buffer.concat`
throws on a sparse array. -/
inductive ChunkOutcome where
  | invalidSession
  | progress (uploadedChunks totalChunks : Nat)
  | completed (blob : Buf)
  | concatError
deriving DecidableEq, Repr

/-- The `/upload-chunk` handler (`video.js` lines 309-358).  The body's
`chunkIndex` and `totalChunks` accompany every request; the handler performs
no bounds check on `chunkIndex` — it assigns `session.chunks[chunkIndex]`
directly (line 322, mutating the stored session in place), recounts the
defined entries, and completes when the count equals the body's
`totalChunks` (line 330), deleting the session on a successful forward. -/
def submitChunk (st : SessionTable) (sid : String) (chunkIndex : Nat)
    (totalChunksBody : Nat) (buf : Buf) : ChunkOutcome × SessionTable :=
  match lookupS st sid with
  | none => (.invalidSession, st)
  | some s =>
    let chunks' := setIdx s.chunks chunkIndex buf
    let uploaded := countDefined chunks'
    if uploaded = totalChunksBody then
      match concatChunks chunks' with
      | some blob => (.completed blob, eraseS st sid)
      | none => (.concatError, insertS st sid { s with chunks := chunks' })
    else
      (.progress uploaded totalChunksBody,
        insertS st sid { s with chunks := chunks' })

/-- The `/start-upload` handler (`video.js` lines 267-296): stores a fresh
session with an empty chunk array under the id
`workerId_recordingId_timestamp` and schedules the 30-minute expiry
callback. -/
def startUpload (st : SessionTable) (fileName : String) (fileSize : Nat)
    (totalChunks : Nat) (recordingId workerId companyId : String)
    (now : Nat) : String × SessionTable :=
  let sid := workerId ++ "_" ++ recordingId ++ "_" ++ toString now
  (sid, insertS st sid
    ⟨fileName, fileSize, totalChunks, [], recordingId, workerId, companyId,
      now⟩)

/-- The 30-minute `setTimeout` callback of `video.js` lines 285-290:
scheduled once at session creation with a flat `30 * 60 * 1000` ms delay —
no later call reschedules or cancels it — it fires at `createdAt` plus
30 minutes and deletes the session if it is still present. -/
def expireSession (st : SessionTable) (sid : String) : SessionTable :=
  match lookupS st sid with
  | some _ => eraseS st sid
  | none => st

/-- Response of the `/upload-status/:sessionId` handler: the 404 of
lines 448-453 or the progress report of lines 458-464. -/
inductive StatusOutcome where
  | notFound
  | status (uploadedChunks totalChunks : Nat) (fileName : String)
deriving DecidableEq, Repr

/-- The `/upload-status/:sessionId` handler (`video.js` lines 445-465),
paired with the session table it leaves behind: the handler only reads the
table. -/
def uploadStatus (st : SessionTable) (sid : String) :
    StatusOutcome × SessionTable :=
  match lookupS st sid with
  | none => (.notFound, st)
  | some s => (.status (countDefined s.chunks) s.totalChunks s.fileName, st)

/-! ### Helper lemmas about the table and array primitives -/

theorem lookupS_eraseS (st : SessionTable) (sid : String) :
    lookupS (eraseS st sid) sid = none := by
  induction st with
  | nil => rfl
  | cons p rest ih =>
    obtain ⟨k, s⟩ := p
    by_cases hk : k = sid <;> simp [eraseS, lookupS, hk, ih]

theorem lookupS_eraseS_ne (st : SessionTable) (sid sid' : String)
    (h : sid' ≠ sid) : lookupS (eraseS st sid) sid' = lookupS st sid' := by
  induction st with
  | nil => rfl
  | cons p rest ih =>
    obtain ⟨k, s⟩ := p
    by_cases hk : k = sid
    · subst hk
      simp [eraseS, lookupS, Ne.symm h, ih]
    · by_cases hk' : k = sid' <;> simp [eraseS, lookupS, hk, hk', h, ih]

theorem lookupS_insertS_self (st : SessionTable) (sid : String)
    (s : Session) : lookupS (insertS st sid s) sid = some s := by
  simp [insertS, lookupS]

theorem lookupS_insertS_ne (st : SessionTable) (sid sid' : String)
    (s : Session) (h : sid' ≠ sid) :
    lookupS (insertS st sid s) sid' = lookupS st sid' := by
  simp [insertS, lookupS, Ne.symm h, lookupS_eraseS_ne st sid sid' h]

theorem getIdx_setIdx (c : List (Option α)) (i j : Nat) (a : α) :
    getIdx (setIdx c i a) j = if j = i then some a else getIdx c j := by
  induction i generalizing c j with
  | zero =>
    cases c <;> cases j <;> simp [setIdx, getIdx]
  | succ i ih =>
    cases c with
    | nil =>
      cases j with
      | zero => simp [setIdx, getIdx]
      | succ j => simpa [setIdx, getIdx] using ih [] j
    | cons x rest =>
      cases j with
      | zero => simp [setIdx, getIdx]
      | succ j => simpa [setIdx, getIdx] using ih rest j

theorem length_setIdx (c : List (Option α)) (i : Nat) (a : α) :
    (setIdx c i a).length = max c.length (i + 1) := by
  induction i generalizing c with
  | zero => cases c <;> simp [setIdx]
  | succ i ih =>
    cases c with
    | nil => simpa [setIdx] using ih []
    | cons x rest => simp [setIdx, ih rest]; omega

theorem countDefined_nil : countDefined ([] : List (Option α)) = 0 := rfl

theorem countDefined_cons (x : Option α) (l : List (Option α)) :
    countDefined (x :: l) = (if x.isSome then 1 else 0) + countDefined l := by
  cases x <;> simp [countDefined, Nat.add_comm]

theorem countDefined_setIdx (c : List (Option α)) (i : Nat) (a : α) :
    countDefined (setIdx c i a)
      = if (getIdx c i).isSome then countDefined c else countDefined c + 1 := by
  induction i generalizing c with
  | zero =>
    cases c with
    | nil => simp [setIdx, getIdx, countDefined]
    | cons x rest =>
      cases x <;> simp [setIdx, getIdx, countDefined_cons, Nat.add_comm]
  | succ i ih =>
    cases c with
    | nil =>
      simpa [setIdx, getIdx, countDefined_cons, countDefined_nil] using ih []
    | cons x rest =>
      simp only [setIdx, countDefined_cons, ih rest, getIdx,
        List.getD_cons_succ]
      split <;> split <;> omega

theorem setIdx_setIdx (c : List (Option α)) (i : Nat) (a b : α) :
    setIdx (setIdx c i a) i b = setIdx c i b := by
  induction i generalizing c with
  | zero => cases c <;> simp [setIdx]
  | succ i ih =>
    cases c with
    | nil => simp [setIdx, ih []]
    | cons x rest => simp [setIdx, ih rest]

/-- The pure effect on a chunk array of a sequence of index arrivals: each
arrival of index `i` performs the `session.chunks[i] = buffer` assignment of
`video.js` line 322, with `bufs i` the buffer belonging to index `i`. -/
def chunksFold (bufs : Nat → Buf) (c₀ : List (Option Buf)) (p : List Nat) :
    List (Option Buf) :=
  p.foldl (fun c i => setIdx c i (bufs i)) c₀

/-- A sequence of `/upload-chunk` requests against one session id, each
carrying the same body `totalChunks = tc` and the buffer belonging to its
index; produces the last response together with the resulting table. -/
def runSubmits (sid : String) (tc : Nat) (bufs : Nat → Buf)
    (st : SessionTable) (p : List Nat) : ChunkOutcome × SessionTable :=
  p.foldl (fun acc i => submitChunk acc.2 sid i tc (bufs i))
    (.progress 0 tc, st)

theorem getIdx_chunksFold (bufs : Nat → Buf) (p : List Nat) :
    ∀ (c₀ : List (Option Buf)) (j : Nat),
      getIdx (chunksFold bufs c₀ p) j
        = if j ∈ p then some (bufs j) else getIdx c₀ j := by
  induction p with
  | nil => simp [chunksFold]
  | cons i p ih =>
    intro c₀ j
    have hstep : chunksFold bufs c₀ (i :: p)
        = chunksFold bufs (setIdx c₀ i (bufs i)) p := rfl
    rw [hstep, ih, getIdx_setIdx]
    by_cases hjp : j ∈ p
    · simp [hjp]
    · by_cases hji : j = i <;> simp [hjp, hji]

theorem length_chunksFold_le (bufs : Nat → Buf) (N : Nat) (p : List Nat) :
    ∀ c₀ : List (Option Buf), (∀ i ∈ p, i < N) → c₀.length ≤ N →
      (chunksFold bufs c₀ p).length ≤ N := by
  induction p with
  | nil => intro c₀ _ hc; simpa [chunksFold] using hc
  | cons i p ih =>
    intro c₀ hp hc
    have hstep : chunksFold bufs c₀ (i :: p)
        = chunksFold bufs (setIdx c₀ i (bufs i)) p := rfl
    rw [hstep]
    refine ih _ (fun i' hi' => hp i' (List.mem_cons_of_mem i hi')) ?_
    rw [length_setIdx]
    have := hp i (List.mem_cons_self i p)
    omega

theorem chunksFold_perm_range (bufs : Nat → Buf) (N : Nat) (perm : List Nat)
    (hperm : perm.Perm (List.range N)) :
    chunksFold bufs [] perm = ((List.range N).map bufs).map some := by
  have hmem : ∀ j, j ∈ perm ↔ j < N := fun j => by
    rw [hperm.mem_iff, List.mem_range]
  have hlen : (chunksFold bufs [] perm).length ≤ N := by
    refine length_chunksFold_le bufs N perm [] (fun i hi => ?_) (by simp)
    exact (hmem i).mp hi
  refine List.ext_getElem? fun j => ?_
  by_cases hj : j < N
  · have hget : getIdx (chunksFold bufs [] perm) j = some (bufs j) := by
      rw [getIdx_chunksFold, if_pos ((hmem j).mpr hj)]
    rw [getIdx, List.getD_eq_getElem?_getD] at hget
    have : (((List.range N).map bufs).map some)[j]?
        = some (some (bufs j)) := by
      rw [List.getElem?_map, List.getElem?_map, List.getElem?_range hj]
      rfl
    rw [this]
    cases hc : (chunksFold bufs [] perm)[j]? with
    | none => rw [hc] at hget; simp at hget
    | some v => rw [hc] at hget; simp at hget; rw [hget]
  · have h₁ : (chunksFold bufs [] perm)[j]? = none :=
      List.getElem?_eq_none (by omega)
    have h₂ : (((List.range N).map bufs).map some)[j]? = none :=
      List.getElem?_eq_none (by simp; omega)
    rw [h₁, h₂]

theorem countDefined_chunksFold (bufs : Nat → Buf) (p : List Nat) :
    ∀ c₀ : List (Option Buf), p.Nodup → (∀ i ∈ p, getIdx c₀ i = none) →
      countDefined (chunksFold bufs c₀ p) = countDefined c₀ + p.length := by
  induction p with
  | nil => intro c₀ _ _; simp [chunksFold]
  | cons i p ih =>
    intro c₀ hnd hnone
    have hstep : chunksFold bufs c₀ (i :: p)
        = chunksFold bufs (setIdx c₀ i (bufs i)) p := rfl
    have hinotp : i ∉ p := (List.nodup_cons.mp hnd).1
    rw [hstep, ih _ (List.nodup_cons.mp hnd).2 ?side]
    case side =>
      intro i' hi'
      rw [getIdx_setIdx]
      have : i' ≠ i := fun h => hinotp (h ▸ hi')
      rw [if_neg this]
      exact hnone i' (List.mem_cons_of_mem i hi')
    rw [countDefined_setIdx, hnone i (List.mem_cons_self i p)]
    simp [List.length_cons]
    omega

theorem concatChunks_map_some (l : List Buf) :
    concatChunks (l.map some) = some l.flatten := by
  induction l with
  | nil => rfl
  | cons x l ih =>
    simp only [concatChunks, List.map_cons, List.mapM_cons] at ih ⊢
    cases hm : (l.map some).mapM id with
    | none => rw [hm] at ih; simp at ih
    | some v =>
      rw [hm] at ih
      simp at ih
      simp [hm, ih]

theorem runSubmits_live (sid : String) (tc : Nat) (bufs : Nat → Buf)
    (q : List Nat) :
    ∀ (st : SessionTable) (s : Session) (r : ChunkOutcome),
      lookupS st sid = some s → q.Nodup →
      (∀ i ∈ q, getIdx s.chunks i = none) →
      countDefined s.chunks + q.length < tc →
      lookupS
          (q.foldl (fun acc i => submitChunk acc.2 sid i tc (bufs i))
            (r, st)).2 sid
        = some { s with chunks := chunksFold bufs s.chunks q } := by
  induction q with
  | nil =>
    intro st s r hs _ _ _
    simpa [chunksFold] using hs
  | cons i q ih =>
    intro st s r hs hnd hnone hcnt
    have hgi : getIdx s.chunks i = none := hnone i (List.mem_cons_self i q)
    have hcnt1 : countDefined (setIdx s.chunks i (bufs i))
        = countDefined s.chunks + 1 := by
      rw [countDefined_setIdx, hgi]
      rfl
    have hne : countDefined (setIdx s.chunks i (bufs i)) ≠ tc := by
      rw [hcnt1]
      simp only [List.length_cons] at hcnt
      omega
    have hstep : submitChunk st sid i tc (bufs i)
        = (.progress (countDefined (setIdx s.chunks i (bufs i))) tc,
            insertS st sid { s with chunks := setIdx s.chunks i (bufs i) })
        := by
      simp [submitChunk, hs, hne]
    have hfold : (List.foldl (fun acc i => submitChunk acc.2 sid i tc
        (bufs i)) (r, st) (i :: q))
        = List.foldl (fun acc i => submitChunk acc.2 sid i tc (bufs i))
            (submitChunk st sid i tc (bufs i)) q := rfl
    rw [hfold, hstep]
    have hinotp : i ∉ q := (List.nodup_cons.mp hnd).1
    have := ih (insertS st sid
        { s with chunks := setIdx s.chunks i (bufs i) })
      { s with chunks := setIdx s.chunks i (bufs i) }
      (.progress (countDefined (setIdx s.chunks i (bufs i))) tc)
      (lookupS_insertS_self st sid _) (List.nodup_cons.mp hnd).2
      (fun i' hi' => by
        rw [getIdx_setIdx]
        have hne' : i' ≠ i := fun h => hinotp (h ▸ hi')
        rw [if_neg hne']
        exact hnone i' (List.mem_cons_of_mem i hi'))
      (by
        rw [hcnt1]
        simp only [List.length_cons] at hcnt
        omega)
    simpa [chunksFold] using this

theorem submitChunk_final (st : SessionTable) (sid : String) (s : Session)
    (i tc : Nat) (b : Buf) (blob : Buf) (hs : lookupS st sid = some s)
    (hcount : countDefined (setIdx s.chunks i b) = tc)
    (hcc : concatChunks (setIdx s.chunks i b) = some blob) :
    submitChunk st sid i tc b = (.completed blob, eraseS st sid) := by
  simp [submitChunk, hs, hcount, hcc]

theorem runSubmits_complete (sid : String) (N : Nat) (hN : 0 < N)
    (bufs : Nat → Buf) (perm : List Nat) (hperm : perm.Perm (List.range N))
    (st : SessionTable) (s₀ : Session) (hch : s₀.chunks = [])
    (hs : lookupS st sid = some s₀) :
    (runSubmits sid N bufs st perm).1
      = .completed ((List.range N).map bufs).flatten := by
  have hnd : perm.Nodup := (hperm.nodup_iff).mpr (List.nodup_range N)
  have hlenp : perm.length = N := by rw [hperm.length_eq, List.length_range]
  rcases List.eq_nil_or_concat perm with rfl | ⟨q, last, rfl⟩
  · simp at hlenp
    omega
  · rw [List.concat_eq_append] at hperm hnd hlenp ⊢
    have hqnd : q.Nodup := hnd.of_append_left
    have hdisj := List.disjoint_of_nodup_append hnd
    have hlastq : last ∉ q := fun h => hdisj h (by simp)
    have hqlen : q.length + 1 = N := by simpa using hlenp
    have hnone : ∀ i ∈ q, getIdx s₀.chunks i = none := by
      intro i _
      rw [hch]
      rfl
    have hcnt0 : countDefined s₀.chunks = 0 := by
      rw [hch]
      rfl
    have hlive := runSubmits_live sid N bufs q st s₀ (.progress 0 N) hs hqnd
      hnone (by rw [hcnt0]; omega)
    rw [runSubmits, List.foldl_append]
    simp only [List.foldl_cons, List.foldl_nil]
    set cQ := chunksFold bufs s₀.chunks q with hcQ
    have hgetlast : getIdx cQ last = none := by
      rw [hcQ, getIdx_chunksFold, if_neg hlastq, hch]
      rfl
    have hcount : countDefined (setIdx cQ last (bufs last)) = N := by
      rw [countDefined_setIdx, hgetlast]
      simp only [Option.isSome_none, Bool.false_eq_true, if_false]
      rw [hcQ, countDefined_chunksFold bufs q s₀.chunks hqnd hnone, hcnt0]
      omega
    have hform : setIdx cQ last (bufs last)
        = ((List.range N).map bufs).map some := by
      have hstep : setIdx (chunksFold bufs s₀.chunks q) last (bufs last)
          = chunksFold bufs s₀.chunks (q ++ [last]) := by
        rw [chunksFold, chunksFold, List.foldl_append]
        rfl
      rw [hcQ, hstep, hch]
      exact chunksFold_perm_range bufs N _ hperm
    have hcc : concatChunks (setIdx cQ last (bufs last))
        = some ((List.range N).map bufs).flatten := by
      rw [hform]
      exact concatChunks_map_some _
    rw [submitChunk_final _ sid _ last N (bufs last)
      ((List.range N).map bufs).flatten hlive hcount hcc]

/-- C4: starting from a fresh reassembly session stored for `sid` with
`total_chunks = N` (the record of `video.js` lines 273-282), submitting its
`N` chunks in ANY arrival order — any permutation of the indices
`0, …, N-1`, each request carrying the matching body `totalChunks = N` and
the buffer belonging to its index — completes the upload with the blob
`Buffer.concat(session.chunks)`: the chunk buffers concatenated in strict
index order `0 ‖ 1 ‖ … ‖ N-1`, independent of the arrival permutation. -/
theorem chunk_reassembly_index_order (st : SessionTable) (sid : String)
    (fn rid wid cid : String) (fs now N : Nat) (hN : 0 < N)
    (bufs : Nat → Buf) (perm : List Nat)
    (hperm : perm.Perm (List.range N)) :
    (runSubmits sid N bufs
        (insertS st sid ⟨fn, fs, N, [], rid, wid, cid, now⟩) perm).1
      = .completed ((List.range N).map bufs).flatten :=
  runSubmits_complete sid N hN bufs perm hperm _ _ rfl
    (lookupS_insertS_self st sid _)

/-- Witness for C4: the spec's arrival order `[2, 0, 1]` for
`total_chunks = 3`. -/
theorem chunk_reassembly_index_order_witness :
    (runSubmits "w_r_0" 3 (fun j => [j])
        (insertS [] "w_r_0" ⟨"f", 9, 3, [], "r", "w", "c", 0⟩) [2, 0, 1]).1
      = .completed ((List.range 3).map fun j => [j]).flatten :=
  chunk_reassembly_index_order [] "w_r_0" "f" "r" "w" "c" 9 0 3 (by decide)
    (fun j => [j]) [2, 0, 1] (by decide)

/-- A live three-chunk demo session with an empty chunk array. -/
def sess3 : Session := ⟨"f", 10, 3, [], "r", "w", "c", 0⟩

/-- The spec's deadline scenario: a five-chunk session holding four
chunks. -/
def sess5 : Session :=
  ⟨"f", 10, 5, [some [1], some [2], some [3], some [4]], "r", "w", "c", 0⟩

/-! ### Theorems about the session manager -/

/-- C9: the status operation is read-only — for every session table and
every session id, known or unknown, the table it returns is exactly the one
it was given. -/
theorem upload_status_readonly (st : SessionTable) (sid : String) :
    (uploadStatus st sid).2 = st := by
  unfold uploadStatus
  cases lookupS st sid <;> rfl

/-- C5 counterexample: the handler performs no bounds check on the chunk
index.  Submitting index 5 to a live session with `total_chunks = 3` is
accepted (a progress response, not the rejection) and mutates the session:
the buffer is stored at index 5 and counted. -/
theorem chunk_index_bound_ce :
    submitChunk [("s", sess3)] "s" 5 3 [9]
        = (.progress 1 3,
            [("s", { sess3 with
                chunks := [none, none, none, none, none, some [9]] })]) ∧
      (submitChunk [("s", sess3)] "s" 5 3 [9]).1 ≠ .invalidSession ∧
      (submitChunk [("s", sess3)] "s" 5 3 [9]).2 ≠ [("s", sess3)] := by
  decide

/-- C5 amended: a `submit_chunk` against a live session is accepted for
every index — in particular indices at or above `total_chunks` — storing
the buffer at that index and counting it; only an unknown or expired
session id is rejected. -/
theorem submit_chunk_no_bounds_check (st : SessionTable) (sid : String)
    (s : Session) (i tc : Nat) (b : Buf) (hs : lookupS st sid = some s)
    (hnf : countDefined (setIdx s.chunks i b) ≠ tc) :
    submitChunk st sid i tc b
        = (.progress (countDefined (setIdx s.chunks i b)) tc,
            insertS st sid { s with chunks := setIdx s.chunks i b }) ∧
      getIdx (setIdx s.chunks i b) i = some b := by
  refine ⟨?_, by simp [getIdx_setIdx]⟩
  simp [submitChunk, hs, hnf]

/-- Witness for the amended C5: index 5 against a live session with
`total_chunks = 3`. -/
theorem submit_chunk_no_bounds_check_witness :
    submitChunk [("s", sess3)] "s" 5 3 [9]
        = (.progress (countDefined (setIdx sess3.chunks 5 [9])) 3,
            insertS [("s", sess3)] "s"
              { sess3 with chunks := setIdx sess3.chunks 5 [9] }) ∧
      getIdx (setIdx sess3.chunks 5 [9]) 5 = some [9] :=
  submit_chunk_no_bounds_check [("s", sess3)] "s" sess3 5 3 [9] (by decide)
    (by decide)

/-- C6: submitting the same chunk index twice overwrites the stored buffer
instead of adding an entry — the second submission reports the same
`uploadedChunks` as the first, the session afterwards holds the second
buffer at that single index, and the status route reports the same count of
distinct filled indices. -/
theorem submit_chunk_overwrites (st : SessionTable) (sid : String)
    (s : Session) (i tc : Nat) (b₁ b₂ : Buf) (hs : lookupS st sid = some s)
    (h1 : countDefined (setIdx s.chunks i b₁) ≠ tc) :
    (submitChunk st sid i tc b₁).1
        = .progress (countDefined (setIdx s.chunks i b₁)) tc ∧
      (submitChunk (submitChunk st sid i tc b₁).2 sid i tc b₂).1
        = .progress (countDefined (setIdx s.chunks i b₁)) tc ∧
      lookupS (submitChunk (submitChunk st sid i tc b₁).2 sid i tc b₂).2 sid
        = some { s with chunks := setIdx s.chunks i b₂ } ∧
      countDefined (setIdx s.chunks i b₂)
        = countDefined (setIdx s.chunks i b₁) ∧
      (uploadStatus
            (submitChunk (submitChunk st sid i tc b₁).2 sid i tc b₂).2
            sid).1
        = .status (countDefined (setIdx s.chunks i b₂)) s.totalChunks
            s.fileName := by
  have hset : setIdx (setIdx s.chunks i b₁) i b₂ = setIdx s.chunks i b₂ :=
    setIdx_setIdx s.chunks i b₁ b₂
  have hcnt : countDefined (setIdx (setIdx s.chunks i b₁) i b₂)
      = countDefined (setIdx s.chunks i b₁) := by
    rw [countDefined_setIdx]
    simp [getIdx_setIdx]
  have hcnt' : countDefined (setIdx s.chunks i b₂)
      = countDefined (setIdx s.chunks i b₁) := by
    rw [← hset, hcnt]
  have hst1 : (submitChunk st sid i tc b₁)
      = (.progress (countDefined (setIdx s.chunks i b₁)) tc,
          insertS st sid { s with chunks := setIdx s.chunks i b₁ }) := by
    simp [submitChunk, hs, h1]
  have hlk1 : lookupS (submitChunk st sid i tc b₁).2 sid
      = some { s with chunks := setIdx s.chunks i b₁ } := by
    rw [hst1]
    exact lookupS_insertS_self st sid _
  have hst2 : (submitChunk (submitChunk st sid i tc b₁).2 sid i tc b₂)
      = (.progress (countDefined (setIdx s.chunks i b₁)) tc,
          insertS (submitChunk st sid i tc b₁).2 sid
            { s with chunks := setIdx s.chunks i b₂ }) := by
    conv_lhs => rw [submitChunk, hlk1]
    simp only [hset, hcnt', if_neg h1]
  refine ⟨by rw [hst1], by rw [hst2], ?_, hcnt', ?_⟩
  · rw [hst2]
    exact lookupS_insertS_self _ sid _
  · rw [hst2]
    simp [uploadStatus, lookupS_insertS_self]

/-- Witness for C6: the same index submitted twice to a live three-chunk
session. -/
theorem submit_chunk_overwrites_witness :
    (submitChunk [("t", sess3)] "t" 1 3 [7]).1
        = .progress (countDefined (setIdx sess3.chunks 1 [7])) 3 ∧
      (submitChunk (submitChunk [("t", sess3)] "t" 1 3 [7]).2 "t" 1 3
            [8]).1
        = .progress (countDefined (setIdx sess3.chunks 1 [7])) 3 ∧
      lookupS
          (submitChunk (submitChunk [("t", sess3)] "t" 1 3 [7]).2 "t" 1 3
              [8]).2 "t"
        = some { sess3 with chunks := setIdx sess3.chunks 1 [8] } ∧
      countDefined (setIdx sess3.chunks 1 [8])
        = countDefined (setIdx sess3.chunks 1 [7]) ∧
      (uploadStatus
            (submitChunk (submitChunk [("t", sess3)] "t" 1 3 [7]).2 "t" 1 3
                [8]).2 "t").1
        = .status (countDefined (setIdx sess3.chunks 1 [8]))
            sess3.totalChunks sess3.fileName :=
  submit_chunk_overwrites [("t", sess3)] "t" sess3 1 3 [7] [8] (by decide)
    (by decide)

/-- C7: the expiry callback fires at the flat 30-minute mark and discards
the session with its buffered bytes (the id no longer resolves); any
subsequent `submit_chunk` against the id is rejected with the invalid
session response and leaves the table unchanged; and no `submit_chunk`
ever changes a surviving session's `createdAt`, so intervening activity
cannot move the deadline. -/
theorem chunk_session_expiry (st : SessionTable) (sid : String) (i tc : Nat)
    (b : Buf) :
    lookupS (expireSession st sid) sid = none ∧
      submitChunk (expireSession st sid) sid i tc b
          = (.invalidSession, expireSession st sid) ∧
      ∀ (st' : SessionTable) (sid' : String) (i' tc' : Nat) (b' : Buf)
        (s s' : Session), lookupS st' sid' = some s →
        lookupS (submitChunk st' sid' i' tc' b').2 sid' = some s' →
        s'.createdAt = s.createdAt := by
  have hnone : lookupS (expireSession st sid) sid = none := by
    unfold expireSession
    cases h : lookupS st sid with
    | none => exact h
    | some s => exact lookupS_eraseS st sid
  refine ⟨hnone, by simp [submitChunk, hnone], ?_⟩
  intro st' sid' i' tc' b' s s' hs hs'
  simp only [submitChunk, hs] at hs'
  by_cases hfin :
      countDefined (setIdx s.chunks i' b') = tc'
  · rw [if_pos hfin] at hs'
    cases hcc : concatChunks (setIdx s.chunks i' b') with
    | none =>
      rw [hcc] at hs'
      rw [lookupS_insertS_self] at hs'
      cases hs'
      rfl
    | some blob =>
      rw [hcc] at hs'
      simp only [lookupS_eraseS] at hs'
      cases hs'
  · rw [if_neg hfin] at hs'
    rw [lookupS_insertS_self] at hs'
    cases hs'
    rfl

/-- Witness for C7: the spec's scenario — a five-chunk session holding four
chunks at its deadline — plus a concrete activity step that leaves
`createdAt` untouched. -/
theorem chunk_session_expiry_witness :
    lookupS (expireSession [("s", sess5)] "s") "s" = none ∧
      submitChunk (expireSession [("s", sess5)] "s") "s" 4 5 [5]
          = (.invalidSession, expireSession [("s", sess5)] "s") ∧
      Session.createdAt
          { sess5 with chunks := setIdx sess5.chunks 0 [9] }
        = sess5.createdAt :=
  ⟨(chunk_session_expiry [("s", sess5)] "s" 4 5 [5]).1,
    (chunk_session_expiry [("s", sess5)] "s" 4 5 [5]).2.1,
    (chunk_session_expiry [("s", sess5)] "s" 4 5 [5]).2.2 [("s", sess5)] "s"
      0 5 [9] sess5 _ (by decide) (by decide)⟩

/-! ### Theorems about the multipart routes -/

set_option maxRecDepth 40000 in
/-- C3 counterexample: the proxy has no range-not-satisfiable path.  For
`bytes=2000-` against an object of size 1000 the code computes
`end = 999 < start` and forwards the impossible range to the store, whose
rejection surfaces as the 500 `streamError` response — not a 416.  And for
`bytes=100-1999` against the same object the code declares
`Content-Length = 1900` while the store can deliver only 900 bytes, so the
body is not `end - start + 1` bytes either. -/
theorem stream_unsatisfiable_range_ce :
    streamVideo (List.replicate 1000 0) (some "bytes=2000-") = .streamError ∧
      streamVideo (List.replicate 1000 0) (some "bytes=100-1999")
        = .ranged (100, 1999, 1000) 1900 (List.replicate 900 0) ∧
      (List.replicate 900 (0 : Nat)).length ≠ 1900 := by
  decide

/-- C3 amended: for a parsed single range `start-end`: when
`start ≤ end < size` the proxy answers 206 with
`Content-Range: bytes start-end/size` against the object's true size and a
body of exactly `end - start + 1` bytes; when `start ≥ size` the proxy makes
no satisfiability check of its own — it forwards the range (whose computed
end lies below the start for `bytes=start-`) to the store and reports the
store's rejection as a 500 error, never a 416. -/
theorem stream_range_responses (obj : Buf) (hdr : String) (s e : Nat)
    (hparse : parseRangeHeader hdr obj.length = some ((s : Int), (e : Int))) :
    (s ≤ e → e < obj.length →
        streamVideo obj (some hdr)
            = .ranged ((s : Int), (e : Int), obj.length) ((e : Int) - s + 1)
                ((obj.drop s).take (e + 1 - s)) ∧
          ((obj.drop s).take (e + 1 - s)).length = e - s + 1)
      ∧ (obj.length ≤ s → streamVideo obj (some hdr) = .streamError) := by
  constructor
  · intro hse hlt
    have hcond : 0 ≤ (s : Int) ∧ (s : Int) ≤ (e : Int) ∧
        (s : Int) < (obj.length : Int) := by
      refine ⟨Int.ofNat_nonneg s, ?_, ?_⟩ <;> omega
    have hbytes : ((e : Int) + 1 - (s : Int)).toNat = e + 1 - s := by omega
    have htoNat : ((s : Int)).toNat = s := by omega
    constructor
    · simp only [streamVideo, hparse, s3GetRange, if_pos hcond, htoNat, hbytes]
    · simp only [List.length_take, List.length_drop]
      omega
  · intro hge
    have hcond : ¬(0 ≤ (s : Int) ∧ (s : Int) ≤ (e : Int) ∧
        (s : Int) < (obj.length : Int)) := by omega
    simp only [streamVideo, hparse, s3GetRange, if_neg hcond]

set_option maxRecDepth 40000 in
/-- Witness for the amended C3: the spec's `bytes=100-199` request against
an object of size 1000. -/
theorem stream_range_responses_witness :
    streamVideo (List.replicate 1000 0) (some "bytes=100-199")
        = .ranged (100, 199, 1000) 100
            (((List.replicate 1000 (0 : Nat)).drop 100).take 100) ∧
      ((((List.replicate 1000 (0 : Nat)).drop 100).take 100)).length = 100 :=
  (stream_range_responses (List.replicate 1000 0) "bytes=100-199" 100 199
    (by decide)).1 (by decide) (by decide)

/-- C1 counterexample: `complete_upload` with the empty parts list is NOT
rejected — `![]` is false in JavaScript, so an empty array passes the body
check and a `CompleteMultipartUploadCommand` with an empty manifest is sent
to the store. -/
theorem complete_upload_empty_parts_ce :
    completeUpload "k" "u" (some []) = .storeCall ⟨"k", "u", []⟩ ∧
    completeUpload "k" "u" (some []) ≠ .validationError := by
  decide

/-- C1 amended: `complete_upload` rejects only a missing (or non-array)
`parts` field; every present array — the empty array included — passes
validation and is submitted to the store, sorted by part number. -/
theorem complete_upload_any_array_reaches_store (key uploadId : String)
    (parts : List PartDesc) (hk : key ≠ "") (hu : uploadId ≠ "") :
    completeUpload key uploadId (some parts)
      = .storeCall ⟨key, uploadId, parts.insertionSort partLE⟩ := by
  simp [completeUpload, hk, hu]

/-- Witness for the amended C1 at the empty parts list. -/
theorem complete_upload_any_array_reaches_store_witness :
    completeUpload "k1" "u1" (some [])
      = .storeCall ⟨"k1", "u1", ([] : List PartDesc).insertionSort partLE⟩ :=
  complete_upload_any_array_reaches_store "k1" "u1" [] (by decide) (by decide)

/-- C2: for every non-empty parts list that passes validation, the manifest
submitted to the store is the input sorted in ascending order of
`PartNumber`, a permutation of the input; on the concrete input
`[{2,"e2"},{1,"e1"},{3,"e3"}]` the submitted part numbers are `[1,2,3]`. -/
theorem complete_upload_sorts_manifest (key uploadId : String)
    (parts : List PartDesc) (hk : key ≠ "") (hu : uploadId ≠ "")
    (hne : parts ≠ []) :
    completeUpload key uploadId (some parts)
        = .storeCall ⟨key, uploadId, parts.insertionSort partLE⟩ ∧
      (parts.insertionSort partLE).Perm parts ∧
      (parts.insertionSort partLE).Sorted partLE ∧
      (([⟨2, "e2"⟩, ⟨1, "e1"⟩, ⟨3, "e3"⟩] : List PartDesc).insertionSort
            partLE).map PartDesc.PartNumber = [1, 2, 3] := by
  refine ⟨?_, List.perm_insertionSort partLE parts,
    List.sorted_insertionSort partLE parts, by decide⟩
  simp [completeUpload, hk, hu]

/-- Witness for C2 at the spec's concrete input. -/
theorem complete_upload_sorts_manifest_witness :
    completeUpload "k2" "u2" (some [⟨2, "e2"⟩, ⟨1, "e1"⟩, ⟨3, "e3"⟩])
        = .storeCall ⟨"k2", "u2",
            ([⟨2, "e2"⟩, ⟨1, "e1"⟩, ⟨3, "e3"⟩] : List PartDesc).insertionSort
              partLE⟩ ∧
      (([⟨2, "e2"⟩, ⟨1, "e1"⟩, ⟨3, "e3"⟩] : List PartDesc).insertionSort
            partLE).Perm [⟨2, "e2"⟩, ⟨1, "e1"⟩, ⟨3, "e3"⟩] ∧
      (([⟨2, "e2"⟩, ⟨1, "e1"⟩, ⟨3, "e3"⟩] : List PartDesc).insertionSort
            partLE).Sorted partLE ∧
      (([⟨2, "e2"⟩, ⟨1, "e1"⟩, ⟨3, "e3"⟩] : List PartDesc).insertionSort
            partLE).map PartDesc.PartNumber = [1, 2, 3] :=
  complete_upload_sorts_manifest "k2" "u2" _ (by decide) (by decide) (by decide)

/-- C8 counterexample: after a first successful abort removes the upload id
from the store, a second abort of the same ticket is answered by the store
with `NoSuchUpload`, which the handler's `catch` block reports as a 500
error — not success. -/
theorem abort_upload_second_call_ce :
    abortUpload ["u1"] "k" "u1" = (.success "k" "u1", []) ∧
      (abortUpload (abortUpload ["u1"] "k" "u1").2 "k" "u1").1 = .storeError ∧
      AbortOutcome.storeError ≠ AbortOutcome.success "k" "u1" := by
  decide

/-- C8 amended: `abort_upload` (with non-empty key and upload id) reports
success exactly when the store accepts the abort, i.e. when the upload id is
still live; the handler performs no idempotency normalization, so an abort
of an id the store no longer knows is reported as a store error. -/
theorem abort_upload_success_iff_live (live : List String)
    (key uploadId : String) (hk : key ≠ "") (hu : uploadId ≠ "") :
    ((abortUpload live key uploadId).1 = .success key uploadId ↔
        uploadId ∈ live) ∧
      ((abortUpload live key uploadId).1 = .storeError ↔ uploadId ∉ live) := by
  unfold abortUpload storeAbort
  by_cases hm : uploadId ∈ live <;> simp [hk, hu, hm]

/-- Witness for the amended C8. -/
theorem abort_upload_success_iff_live_witness :
    ((abortUpload ["ua"] "ka" "ua").1 = .success "ka" "ua" ↔
        "ua" ∈ ["ua"]) ∧
      ((abortUpload ["ua"] "ka" "ua").1 = .storeError ↔ "ua" ∉ ["ua"]) :=
  abort_upload_success_iff_live ["ua"] "ka" "ua" (by decide) (by decide)

/-- C10: the part-credential handler reads only the request body — two
authenticated callers with different worker identities or tenants who supply
identical `(key, uploadId, partNumber)` bodies receive the same scoped
credential; no tenant-scoping check is applied. -/
theorem part_url_worker_independent (bucket : String) (w₁ w₂ : WorkerCtx)
    (key uploadId : String) (partNumber : Nat) :
    requestPartUrl bucket w₁ key uploadId partNumber
      = requestPartUrl bucket w₂ key uploadId partNumber := rfl

end ZeroPacking
